import Mathlib

/-!
Verification of the Schedulo shift-scheduling and shift-swap code base.

The definitions below are a shallow embedding of the TypeScript source:
  - `src/src/types/shift.ts`        (data model)
  - `src/src/lib/firebaseService.ts` (store adapter: CRUD, queries, subscriptions)
  - `src/src/lib/shiftGenerator.ts`  (balanced shift generation)
  - `src/src/pages/EmployeeDashboard.tsx` (swap request creation and response)
  - `src/src/pages/Signup.tsx`       (signup and login)
  - the diagnostics page (duplicate scan and swap-request correlation check)

The document store is modelled as explicit lists of records, ordered by
ascending document id (the order in which the backing store enumerates a
collection when no orderBy clause is given).  Fallible store writes
(`updateDoc` rejects when the target document is missing) are modelled with
`Option`: `none` is the rejected promise, which the page-level handlers
catch.  Randomness (`Math.random`) is modelled as an oracle argument.
-/

namespace Schedulo

/-! ### Data model (src/src/types/shift.ts) -/

/-- `ShiftType = 'day' | 'afternoon' | 'night'`. -/
inductive ShiftType where
  | day
  | afternoon
  | night
deriving DecidableEq, Repr

/-- The string each `ShiftType` value interpolates to in template literals. -/
def ShiftType.str : ShiftType → String
  | .day => "day"
  | .afternoon => "afternoon"
  | .night => "night"

/-- `Shift` record. -/
structure Shift where
  id : String
  employeeId : String
  employeeName : String
  date : String
  type : ShiftType
  startTime : String
  endTime : String
deriving DecidableEq, Repr

/-- `SwapRequest.status` values. -/
inductive SwapStatus where
  | pending
  | accepted
  | declined
deriving DecidableEq, Repr

/-- `SwapRequest` record.  The embedded shift snapshot is optional: stored
documents may lack it, in which case the subscription enriches it lazily. -/
structure SwapRequest where
  id : String
  fromEmployeeId : String
  fromEmployeeName : String
  toEmployeeId : String
  toEmployeeName : String
  shiftId : String
  shift : Option Shift
  status : SwapStatus
  createdAt : String
deriving DecidableEq, Repr

/-- `ActivityLog.type` values. -/
inductive ActivityType where
  | shift_created
  | shift_updated
  | shift_deleted
  | swap_requested
  | swap_accepted
  | swap_declined
deriving DecidableEq, Repr

/-- `ActivityLog` record (sans store-assigned id). -/
structure ActivityLog where
  type : ActivityType
  description : String
  userId : String
  userName : String
  timestamp : String
deriving DecidableEq, Repr

/-- `User` record of the `users` collection.  The TypeScript `User` interface
declares only `id`, `email`, `name`, `role`, but the login code also reads
`u.password`, which is absent (`undefined`) on documents that never had one;
we model that field as an `Option`. -/
structure StoredUser where
  id : String
  email : String
  name : String
  role : String
  password : Option String := none
deriving DecidableEq, Repr

/-- An entry of the in-memory `testCredentials.employees` list. -/
structure Credential where
  email : String
  name : String
  password : String
deriving DecidableEq, Repr

/-- The three collections the swap protocol touches. -/
structure DB where
  shifts : List Shift
  swapRequests : List SwapRequest
  activityLogs : List ActivityLog
deriving DecidableEq, Repr

/-! ### Identity derivation

`user.name.split(' ')[0].toLowerCase()` — the short identifier used to
correlate users, shifts and swap requests. -/

/-- Short id derivation: first whitespace-token of the display name,
lowered.  `split(' ')[0]` is the maximal prefix free of space characters,
and `toLowerCase` maps each character to lower case; both are written here
directly over the character list so that they evaluate by reduction. -/
def shortId (name : String) : String :=
  ⟨(name.data.takeWhile (fun c => c ≠ ' ')).map Char.toLower⟩

/-! ### Store adapter (src/src/lib/firebaseService.ts) -/

/-- A `Partial<Shift>` argument to `updateShift`. -/
structure ShiftPatch where
  employeeId : Option String := none
  employeeName : Option String := none
  date : Option String := none
  type : Option ShiftType := none
  startTime : Option String := none
  endTime : Option String := none
deriving DecidableEq, Repr

/-- Merge a partial update into a shift document, field by field. -/
def applyShiftPatch (p : ShiftPatch) (s : Shift) : Shift :=
  { s with
    employeeId := p.employeeId.getD s.employeeId
    employeeName := p.employeeName.getD s.employeeName
    date := p.date.getD s.date
    type := p.type.getD s.type
    startTime := p.startTime.getD s.startTime
    endTime := p.endTime.getD s.endTime }

/-- The only `Partial<SwapRequest>` the embedded pages ever send is a status
update, so the patch carries just that field. -/
structure SwapPatch where
  status : Option SwapStatus := none
deriving DecidableEq, Repr

/-- Merge a partial update into a swap-request document. -/
def applySwapPatch (p : SwapPatch) (r : SwapRequest) : SwapRequest :=
  { r with status := p.status.getD r.status }

/-- `updateShift(shiftId, data)`: `updateDoc` rewrites the matching document
and rejects (`none`) when no document with that id exists. -/
def updateShift (db : DB) (shiftId : String) (p : ShiftPatch) : Option DB :=
  if db.shifts.any (fun s => s.id == shiftId) then
    some { db with
      shifts := db.shifts.map (fun s => if s.id == shiftId then applyShiftPatch p s else s) }
  else none

/-- `updateSwapRequest(requestId, data)`, same `updateDoc` semantics. -/
def updateSwapRequest (db : DB) (requestId : String) (p : SwapPatch) : Option DB :=
  if db.swapRequests.any (fun r => r.id == requestId) then
    some { db with
      swapRequests :=
        db.swapRequests.map (fun r => if r.id == requestId then applySwapPatch p r else r) }
  else none

/-- `addSwapRequest`: `addDoc` appends a fresh document (its store-assigned id
is already filled into the record here). -/
def addSwapRequest (db : DB) (r : SwapRequest) : DB :=
  { db with swapRequests := db.swapRequests ++ [r] }

/-- `addActivityLog`: `addDoc` appends a fresh log entry. -/
def addActivityLog (db : DB) (l : ActivityLog) : DB :=
  { db with activityLogs := db.activityLogs ++ [l] }

/-! ### Swap response (EmployeeDashboard.handleSwapResponse)

The handler looks the request up in the component's subscribed list, then
issues up to three store writes.  `none` models the `catch` branch being
reached because a store write rejected. -/

/-- The activity-log entry `handleSwapResponse` appends. -/
def swapResponseLog (accept : Bool) (userName userId now fromName : String) : ActivityLog :=
  { type := if accept then .swap_accepted else .swap_declined
    description :=
      userName ++ (if accept then " accepted" else " declined")
        ++ " swap request from " ++ fromName
    userId := userId
    userName := userName
    timestamp := now }

/-- `handleSwapResponse(requestId, accept)` from EmployeeDashboard.tsx.
`swapRequests` is the component state fed by the subscription; `db` is the
backing store.  Note the handler never inspects `request.status`. -/
def handleSwapResponse (db : DB) (swapRequests : List SwapRequest) (requestId : String)
    (accept : Bool) (userName userId now : String) : Option DB :=
  match swapRequests.find? (fun r => r.id == requestId) with
  | none => some db
  | some request =>
    let step1 : Option DB :=
      match accept, request.shift with
      | true, some sh =>
        updateShift db sh.id
          { employeeId := some request.toEmployeeId
            employeeName := some request.toEmployeeName }
      | true, none => some db
      | false, _ => some db
    match step1 with
    | none => none
    | some db1 =>
      match updateSwapRequest db1 requestId
          { status := some (if accept then .accepted else .declined) } with
      | none => none
      | some db2 =>
        some (addActivityLog db2
          (swapResponseLog accept userName userId now request.fromEmployeeName))

/-! ### Swap creation (EmployeeDashboard.handleSwapConfirm and
ShiftSwapModal.availableEmployees) -/

/-- Public user shape used by the swap modal. -/
structure AppUser where
  id : String
  email : String
  name : String
  role : String
deriving DecidableEq, Repr

/-- `employees.filter(e => e.id !== currentUserId)` — the only guard on who
may be picked as a swap target: it compares durable account ids. -/
def availableEmployees (employees : List AppUser) (currentUserId : String) : List AppUser :=
  employees.filter (fun e => e.id != currentUserId)

/-- `handleSwapConfirm(targetEmployeeId, targetEmployeeName)`: derives both
short ids, persists the pending request with a denormalized shift snapshot,
and appends a `swap_requested` log entry.  There is no requester-vs-recipient
validation.  The human-readable date formatting of the log line is modelled
by the raw date string. -/
def handleSwapConfirm (db : DB) (userName userId : String) (selectedShift : Option Shift)
    (targetEmployeeId targetEmployeeName : String) (newRequestId now : String) : DB :=
  match selectedShift with
  | none => db
  | some sh =>
    let fromShortId := shortId userName
    let toShortId := shortId targetEmployeeName
    let db1 := addSwapRequest db
      { id := newRequestId
        fromEmployeeId := fromShortId
        fromEmployeeName := userName
        toEmployeeId := toShortId
        toEmployeeName := targetEmployeeName
        shiftId := sh.id
        shift := some sh
        status := .pending
        createdAt := now }
    addActivityLog db1
     ({ type := .swap_requested
        description :=
          userName ++ " requested to swap " ++ sh.type.str ++ " shift on " ++ sh.date
        userId := userId
        userName := userName
        timestamp := now })

/-! ### listByOwner (firebaseService.getShiftsByEmployee)

The `shifts` collection is a list of documents enumerated in ascending
document-id order (the order the backing store uses when no orderBy clause
is given).  The indexed path asks the store for
`where employeeId == eid, orderBy date asc`, which the store serves sorted
by date with the implicit document-id ascending tiebreak.  The fallback path
(missing composite index) fetches the filtered documents unordered — i.e. in
document-id order — and stable-sorts them client side by
`a.date.localeCompare(b.date)`; on ASCII ISO dates that comparison agrees
with code-unit string order, and the JavaScript array sort is stable. -/

/-- Client-side comparator of the fallback: date ascending. -/
def dateLe (a b : Shift) : Bool :=
  decide (a.date ≤ b.date)

/-- Order served by the store for `orderBy date asc`: date ascending with the
implicit document-id ascending tiebreak. -/
def dateIdLe (a b : Shift) : Bool :=
  decide (a.date < b.date) || (a.date == b.date && decide (a.id ≤ b.id))

/-- Indexed path of `getShiftsByEmployee`: ordered+filtered server query. -/
def getShiftsByEmployee_indexed (store : List Shift) (employeeId : String) : List Shift :=
  (store.filter (fun s => s.employeeId == employeeId)).mergeSort dateIdLe

/-- Fallback path of `getShiftsByEmployee` (missing-index
`failed-precondition`): unordered filtered fetch, then client-side stable
sort by date ascending. -/
def getShiftsByEmployee_fallback (store : List Shift) (employeeId : String) : List Shift :=
  (store.filter (fun s => s.employeeId == employeeId)).mergeSort dateLe

/-- `addShift`: `addDoc` inserts a new document into the collection. -/
def addShift (store : List Shift) (s : Shift) : List Shift :=
  store ++ [s]

/-! ### Shift generator (src/src/lib/shiftGenerator.ts)

`Math.random` is modelled by an oracle `randj` giving, for each loop index
`i` of the Fisher-Yates shuffle, the chosen swap position
`Math.floor(Math.random() * (i + 1))`; the `% (i + 1)` below only clamps the
oracle into the range the real computation always lands in.  Calendar dates
are modelled as day numbers: the generation loop advances `currentDate` by
exactly one day per iteration, so successive iterations carry distinct
dates. -/

/-- The hard-coded EMPLOYEES roster: (id, name) pairs. -/
def EMPLOYEES : List (String × String) :=
  [("jessica", "Jessica Martinez"),
   ("sarah", "Sarah Johnson"),
   ("emma", "Emma Wilson"),
   ("mike", "Mike Davis"),
   ("john", "John Smith"),
   ("rachel", "Rachel Taylor"),
   ("david", "David Lee"),
   ("alex", "Alex Brown")]

/-- One element of `generateDayAssignments`'s result. -/
structure ShiftAssignment where
  employeeId : String
  employeeName : String
  type : ShiftType
deriving DecidableEq, Repr

/-- `SHIFT_TIMES`: canonical (start, end) time per shift type. -/
def SHIFT_TIMES : ShiftType → String × String
  | .day => ("08:00", "16:00")
  | .afternoon => ("16:00", "00:00")
  | .night => ("00:00", "08:00")

/-- `[arr[i], arr[j]] = [arr[j], arr[i]]`; out-of-range indices leave the
list unchanged (they never occur in the shuffle loop). -/
def swapElems {α : Type} (l : List α) (i j : Nat) : List α :=
  match l[i]?, l[j]? with
  | some a, some b => (l.set i b).set j a
  | _, _ => l

/-- The Fisher-Yates loop body, counting `i` down from `l.length - 1` to 1:
`j = Math.floor(Math.random() * (i + 1)); swap(arr[i], arr[j])`. -/
def fisherYatesAux {α : Type} (randj : Nat → Nat) : Nat → List α → List α
  | 0, arr => arr
  | i + 1, arr => fisherYatesAux randj i (swapElems arr (i + 1) (randj (i + 1) % (i + 2)))

/-- `shuffleArray`: Fisher-Yates over a copy of the input. -/
def shuffleArray {α : Type} (randj : Nat → Nat) (l : List α) : List α :=
  match l.length with
  | 0 => l
  | n + 1 => fisherYatesAux randj n l

/-- `generateDayAssignments()`: shuffle the roster, then indices 0-1 take the
day shift, 2-3 the afternoon shift, 4 the night shift (5-7 are off).  The
catch-all branch is unreachable because shuffling preserves the roster's
length of 8. -/
def generateDayAssignments (randj : Nat → Nat) : List ShiftAssignment :=
  match shuffleArray randj EMPLOYEES with
  | e0 :: e1 :: e2 :: e3 :: e4 :: _ =>
    [{ employeeId := e0.1, employeeName := e0.2, type := .day },
     { employeeId := e1.1, employeeName := e1.2, type := .day },
     { employeeId := e2.1, employeeName := e2.2, type := .afternoon },
     { employeeId := e3.1, employeeName := e3.2, type := .afternoon },
     { employeeId := e4.1, employeeName := e4.2, type := .night }]
  | _ => []

/-- A generated shift with its calendar date as a day number. -/
structure GenShift where
  date : Nat
  employeeId : String
  employeeName : String
  type : ShiftType
  startTime : String
  endTime : String
deriving DecidableEq, Repr

/-- `generateBalancedShifts(startDate, endDate)`: one block of five
assignments per day of the inclusive range. -/
def generateBalancedShifts (randj : Nat → Nat → Nat) (startDay endDay : Nat) : List GenShift :=
  (List.range' startDay (endDay + 1 - startDay)).flatMap (fun d =>
    (generateDayAssignments (randj d)).map (fun a =>
      { date := d
        employeeId := a.employeeId
        employeeName := a.employeeName
        type := a.type
        startTime := (SHIFT_TIMES a.type).1
        endTime := (SHIFT_TIMES a.type).2 }))

/-! ### Diagnostics page: duplicate scan and swap correlation check -/

/-- The grouping key of the duplicate scan:
`` `${shift.date}-${shift.type}-${shift.employeeId}` ``. -/
def dupKey (s : Shift) : String :=
  s.date ++ "-" ++ s.type.str ++ "-" ++ s.employeeId

/-- Append a key if unseen — JavaScript `Map`/`Set` insertion order. -/
def insertUnique (ks : List String) (k : String) : List String :=
  if k ∈ ks then ks else ks ++ [k]

/-- The distinct values of a list in first-occurrence order. -/
def uniqueList (l : List String) : List String :=
  l.foldl insertUnique []

/-- The groups of the duplicate scan, in key insertion order: for each key
ever inserted into the `dupes` map, the shifts filed under it. -/
def duplicateGroups (shifts : List Shift) : List (List Shift) :=
  (uniqueList (shifts.map dupKey)).map (fun k => shifts.filter (fun s => dupKey s == k))

/-- `dupesFound`: groups with more than one entry. -/
def dupesFound (shifts : List Shift) : List (List Shift) :=
  (duplicateGroups shifts).filter (fun g => g.length > 1)

/-- `new Set(shifts.map(s => s.employeeId))`, as an insertion-ordered list. -/
def shiftEmployeeIdSet (shifts : List Shift) : List String :=
  uniqueList (shifts.map (fun s => s.employeeId))

/-- `Array.from(swapFromIds).filter(id => !shiftEmployeeIds.has(id))`. -/
def mismatchedFrom (shifts : List Shift) (swaps : List SwapRequest) : List String :=
  (uniqueList (swaps.map (fun r => r.fromEmployeeId))).filter
    (fun i => !(shiftEmployeeIdSet shifts).contains i)

/-- `Array.from(swapToIds).filter(id => !shiftEmployeeIds.has(id))`. -/
def mismatchedTo (shifts : List Shift) (swaps : List SwapRequest) : List String :=
  (uniqueList (swaps.map (fun r => r.toEmployeeId))).filter
    (fun i => !(shiftEmployeeIdSet shifts).contains i)

/-- The MISMATCH warning lines of `handleTestSwapRequests`: the analysis runs
only when some swap request exists, and one line per non-empty mismatch list
is pushed, tagged with the field it concerns and listing the offending
identifiers.  The checker only reads the collections — it is a pure function
of them and mutates nothing. -/
def correlationWarnings (shifts : List Shift) (swaps : List SwapRequest) :
    List (String × List String) :=
  if swaps.length > 0 then
    (if (mismatchedFrom shifts swaps).length > 0
      then [("fromEmployeeIds", mismatchedFrom shifts swaps)] else [])
    ++ (if (mismatchedTo shifts swaps).length > 0
      then [("toEmployeeIds", mismatchedTo shifts swaps)] else [])
  else []

/-! ### Swap-request subscription enrichment
(firebaseService.subscribeToSwapRequests)

The by-id shift lookup (`getDoc`) is modelled as an oracle returning
`Except`: `.error` is a rejected promise (caught inside the enrichment
loop), `.ok none` a document that does not exist, `.ok (some s)` a found
shift.  `Promise.all` resolves once every per-request lookup has settled,
and the callback receives the fully enriched batch — which the pure
`List.map` below is by construction. -/

/-- Enrichment of a single request: backfill the snapshot when it is absent
and the request carries a non-empty (truthy) `shiftId`; a missing document
or a failed lookup leaves the request as delivered, without shift details —
the error is logged, never rethrown. -/
def enrichSwapRequest (lookup : String → Except Unit (Option Shift)) (req : SwapRequest) :
    SwapRequest :=
  match req.shift with
  | some _ => req
  | none =>
    if req.shiftId ≠ "" then
      match lookup req.shiftId with
      | .ok (some sh) => { req with shift := some sh }
      | .ok none => req
      | .error _ => req
    else req

/-- One delivery of `subscribeToSwapRequests(employeeId, callback)`: the
snapshot of the `toEmployeeId == employeeId` query, every element enriched
before the callback fires. -/
def swapSubscriptionBatch (store : List SwapRequest) (employeeId : String)
    (lookup : String → Except Unit (Option Shift)) : List SwapRequest :=
  (store.filter (fun r => r.toEmployeeId == employeeId)).map (enrichSwapRequest lookup)

/-! ### Signup and login (src/src/pages/Signup.tsx) -/

/-- The user document `handleSignup` writes: email, name and the default
role — and nothing else; in particular no password field. -/
def signedUpUser (newId name email : String) : StoredUser :=
  { id := newId, email := email, name := name, role := "employee", password := none }

/-- `handleSignup(name, email, password)`: reject an already-registered
email (no write at all), otherwise add the user document and push the
credentials onto the in-memory `testCredentials.employees` list.  Returns
the users collection, the credential list, and whether signup succeeded. -/
def handleSignup (users : List StoredUser) (creds : List Credential)
    (newId name email password : String) : List StoredUser × List Credential × Bool :=
  if users.any (fun u => u.email.toLower == email.toLower) then
    (users, creds, false)
  else
    (users ++ [signedUpUser newId name email],
     creds ++ [{ email := email, name := name, password := password }],
     true)

/-- `handleLogin(email, password)` from the Auth page: try the manager test
credential, then the in-memory employee credential list, then the stored
user documents matching `u.password === password`. -/
def handleLogin (users : List StoredUser) (managerCred : Credential)
    (creds : List Credential) (email password : String) : Option StoredUser :=
  let managerHit :=
    if email == managerCred.email && password == managerCred.password then
      users.find? (fun u => u.role == "manager")
    else none
  match managerHit with
  | some m => some m
  | none =>
    match creds.find? (fun c => c.email == email && c.password == password) with
    | some _ =>
      match users.find? (fun u => u.email == email) with
      | some u => some u
      | none => users.find? (fun u => u.email == email && u.password == some password)
    | none => users.find? (fun u => u.email == email && u.password == some password)

/-! ## Helper lemmas -/

/-- Normal form of a successful accepting response when the snapshot is
present: the shift document is rewritten to the recipient, the request
status to `accepted`, and a `swap_accepted` log entry is appended. -/
theorem handleSwapResponse_accept_snapshot_eq
    (db : DB) (reqs : List SwapRequest) (requestId userName userId now : String)
    (req : SwapRequest) (sh : Shift)
    (hfind : reqs.find? (fun r => r.id == requestId) = some req)
    (hsnap : req.shift = some sh)
    (hany : db.shifts.any (fun s => s.id == sh.id) = true)
    (hreq : db.swapRequests.any (fun r => r.id == requestId) = true) :
    handleSwapResponse db reqs requestId true userName userId now =
      some
        { shifts := db.shifts.map (fun s =>
            if s.id == sh.id then
              applyShiftPatch
                { employeeId := some req.toEmployeeId
                  employeeName := some req.toEmployeeName } s
            else s)
          swapRequests := db.swapRequests.map (fun r =>
            if r.id == requestId then applySwapPatch { status := some .accepted } r else r)
          activityLogs := db.activityLogs ++
            [swapResponseLog true userName userId now req.fromEmployeeName] } := by
  simp only [handleSwapResponse, hfind, hsnap, updateShift, updateSwapRequest, hany, hreq,
    if_true, addActivityLog]

/-- Normal form of a successful accepting response when the snapshot is
absent: the shift store is untouched, yet the status still becomes
`accepted` and the `swap_accepted` log entry is still appended. -/
theorem handleSwapResponse_accept_no_snapshot_eq
    (db : DB) (reqs : List SwapRequest) (requestId userName userId now : String)
    (req : SwapRequest)
    (hfind : reqs.find? (fun r => r.id == requestId) = some req)
    (hsnap : req.shift = none)
    (hreq : db.swapRequests.any (fun r => r.id == requestId) = true) :
    handleSwapResponse db reqs requestId true userName userId now =
      some
        { shifts := db.shifts
          swapRequests := db.swapRequests.map (fun r =>
            if r.id == requestId then applySwapPatch { status := some .accepted } r else r)
          activityLogs := db.activityLogs ++
            [swapResponseLog true userName userId now req.fromEmployeeName] } := by
  simp only [handleSwapResponse, hfind, hsnap, updateSwapRequest, hreq, if_true, addActivityLog]

/-! ## Claims -/

/-- C1.  For every pending swap request whose embedded shift snapshot is
present, after a successful `handleSwapResponse(id, true)` the referenced
shift document carries the recipient's short id and display name, while its
date, type, start and end times are unchanged from the pre-transfer
document. -/
theorem accept_transfers_ownership
    (db : DB) (reqs : List SwapRequest) (requestId userName userId now : String)
    (req : SwapRequest) (sh s0 : Shift)
    (hfind : reqs.find? (fun r => r.id == requestId) = some req)
    (hpending : req.status = SwapStatus.pending)
    (hsnap : req.shift = some sh)
    (hmem : s0 ∈ db.shifts) (hid : s0.id = sh.id)
    (huniq : ∀ s ∈ db.shifts, s.id = sh.id → s = s0)
    (hreq : db.swapRequests.any (fun r => r.id == requestId) = true) :
    ∃ db2, handleSwapResponse db reqs requestId true userName userId now = some db2 ∧
      (∃ s1 ∈ db2.shifts, s1.id = sh.id) ∧
      ∀ s1 ∈ db2.shifts, s1.id = sh.id →
        s1.employeeId = req.toEmployeeId ∧ s1.employeeName = req.toEmployeeName ∧
        s1.date = s0.date ∧ s1.type = s0.type ∧
        s1.startTime = s0.startTime ∧ s1.endTime = s0.endTime := by
  have hany : db.shifts.any (fun s => s.id == sh.id) = true :=
    List.any_eq_true.mpr ⟨s0, hmem, by simp [hid]⟩
  refine ⟨_, handleSwapResponse_accept_snapshot_eq db reqs requestId userName userId now
    req sh hfind hsnap hany hreq, ?_, ?_⟩
  · refine ⟨applyShiftPatch
      { employeeId := some req.toEmployeeId, employeeName := some req.toEmployeeName } s0,
      ?_, by simp [applyShiftPatch, hid]⟩
    have : (fun s => if s.id == sh.id then
        applyShiftPatch
          { employeeId := some req.toEmployeeId, employeeName := some req.toEmployeeName } s
        else s) s0 =
        applyShiftPatch
          { employeeId := some req.toEmployeeId, employeeName := some req.toEmployeeName } s0 := by
      simp [hid]
    exact this ▸ List.mem_map_of_mem _ hmem
  · intro s1 hs1 hsid
    rcases List.mem_map.mp hs1 with ⟨s, hsmem, rfl⟩
    by_cases hc : (s.id == sh.id) = true
    · have hs0 : s = s0 := huniq s hsmem (by simpa using hc)
      subst hs0
      simp [hc, applyShiftPatch]
    · exfalso
      rw [if_neg (by simpa using hc)] at hsid
      exact hc (by simpa using hsid)

/-- Concrete scenario A shift: John Smith owns the day shift of Nov 27. -/
def johnShift : Shift :=
  { id := "s1", employeeId := "john", employeeName := "John Smith", date := "2024-11-27",
    type := .day, startTime := "08:00", endTime := "16:00" }

/-- Concrete scenario A request: John asks Sarah to take the shift. -/
def johnToSarahReq : SwapRequest :=
  { id := "r1", fromEmployeeId := "john", fromEmployeeName := "John Smith",
    toEmployeeId := "sarah", toEmployeeName := "Sarah Johnson", shiftId := "s1",
    shift := some johnShift, status := .pending, createdAt := "t0" }

/-- Concrete scenario A database. -/
def scenarioDb : DB :=
  { shifts := [johnShift], swapRequests := [johnToSarahReq], activityLogs := [] }

/-- C1 witness: the transfer invariant at the concrete scenario database. -/
theorem accept_transfers_ownership_witness :
    ∃ db2,
      handleSwapResponse scenarioDb [johnToSarahReq] "r1" true "Sarah Johnson" "u2" "t1" =
        some db2 ∧
      (∃ s1 ∈ db2.shifts, s1.id = johnShift.id) ∧
      ∀ s1 ∈ db2.shifts, s1.id = johnShift.id →
        s1.employeeId = johnToSarahReq.toEmployeeId ∧
        s1.employeeName = johnToSarahReq.toEmployeeName ∧
        s1.date = johnShift.date ∧ s1.type = johnShift.type ∧
        s1.startTime = johnShift.startTime ∧ s1.endTime = johnShift.endTime :=
  accept_transfers_ownership scenarioDb [johnToSarahReq] "r1" "Sarah Johnson" "u2" "t1"
    johnToSarahReq johnShift johnShift
    (by decide) (by decide) (by decide) (by decide) (by decide) (by decide) (by decide)

/-- C9.  Accepting a pending request whose embedded snapshot is absent
silently skips the ownership transfer: the shift store is byte-for-byte
unchanged, yet the request status still becomes `accepted` and a
`swap_accepted` activity entry is still appended. -/
theorem accept_without_snapshot_skips_transfer
    (db : DB) (reqs : List SwapRequest) (requestId userName userId now : String)
    (req : SwapRequest)
    (hfind : reqs.find? (fun r => r.id == requestId) = some req)
    (hpending : req.status = SwapStatus.pending)
    (hsnap : req.shift = none)
    (hreq : db.swapRequests.any (fun r => r.id == requestId) = true) :
    ∃ db2, handleSwapResponse db reqs requestId true userName userId now = some db2 ∧
      db2.shifts = db.shifts ∧
      db2.swapRequests = db.swapRequests.map (fun r =>
        if r.id == requestId then applySwapPatch { status := some .accepted } r else r) ∧
      db2.activityLogs = db.activityLogs ++
        [swapResponseLog true userName userId now req.fromEmployeeName] := by
  exact ⟨_, handleSwapResponse_accept_no_snapshot_eq db reqs requestId userName userId now
    req hfind hsnap hreq, rfl, rfl, rfl⟩

/-- A request identical to the scenario request but stored without its
snapshot (as the fix scripts and older documents leave them). -/
def snapshotlessReq : SwapRequest :=
  { johnToSarahReq with shift := none }

/-- C9 witness: accepting the snapshotless request at a concrete database
leaves the shift store untouched while the status still turns `accepted`. -/
theorem accept_without_snapshot_skips_transfer_witness :
    ∃ db2,
      handleSwapResponse
        { shifts := [johnShift], swapRequests := [snapshotlessReq], activityLogs := [] }
        [snapshotlessReq] "r1" true "Sarah Johnson" "u2" "t1" = some db2 ∧
      db2.shifts = [johnShift] ∧
      db2.swapRequests = [snapshotlessReq].map (fun r =>
        if r.id == "r1" then applySwapPatch { status := some .accepted } r else r) ∧
      db2.activityLogs = [] ++
        [swapResponseLog true "Sarah Johnson" "u2" "t1" snapshotlessReq.fromEmployeeName] :=
  accept_without_snapshot_skips_transfer
    { shifts := [johnShift], swapRequests := [snapshotlessReq], activityLogs := [] }
    [snapshotlessReq] "r1" "Sarah Johnson" "u2" "t1" snapshotlessReq
    (by decide) (by decide) (by decide) (by decide)

/-- The scenario request already resolved to `declined` — a terminal
status. -/
def declinedReq : SwapRequest :=
  { johnToSarahReq with status := .declined }

/-- The scenario database holding the already-declined request. -/
def declinedDb : DB :=
  { shifts := [johnShift], swapRequests := [declinedReq], activityLogs := [] }

/-- C2 counterexample.  Responding `accept` to the already-declined request
is NOT rejected: the call succeeds, rewrites the terminal status to
`accepted`, and mutates the shift document again (its owner fields are
rewritten to the recipient).  This falsifies the claim that a response to a
terminal request is a no-op or an error. -/
theorem respond_terminal_counterexample :
    declinedReq.status = SwapStatus.declined ∧
    handleSwapResponse declinedDb [declinedReq] "r1" true "Sarah Johnson" "u2" "t1" =
      some
        { shifts := [{ johnShift with employeeId := "sarah", employeeName := "Sarah Johnson" }]
          swapRequests := [{ declinedReq with status := .accepted }]
          activityLogs := [swapResponseLog true "Sarah Johnson" "u2" "t1" "John Smith"] } := by
  constructor
  · rfl
  · decide

/-- C2 amended.  The handler never inspects the request status: a response
to an already-terminal request is silently re-applied — the status is
rewritten to the responder's chosen terminal value, and an accepting
response with a present snapshot re-runs the ownership transfer. -/
theorem respond_ignores_prior_status
    (db : DB) (reqs : List SwapRequest) (requestId userName userId now : String)
    (req : SwapRequest) (sh : Shift)
    (hfind : reqs.find? (fun r => r.id == requestId) = some req)
    (hterm : req.status ≠ SwapStatus.pending)
    (hsnap : req.shift = some sh)
    (hany : db.shifts.any (fun s => s.id == sh.id) = true)
    (hreq : db.swapRequests.any (fun r => r.id == requestId) = true) :
    ∃ db2, handleSwapResponse db reqs requestId true userName userId now = some db2 ∧
      db2.swapRequests = db.swapRequests.map (fun r =>
        if r.id == requestId then applySwapPatch { status := some .accepted } r else r) ∧
      db2.shifts = db.shifts.map (fun s =>
        if s.id == sh.id then
          applyShiftPatch
            { employeeId := some req.toEmployeeId
              employeeName := some req.toEmployeeName } s
        else s) := by
  exact ⟨_, handleSwapResponse_accept_snapshot_eq db reqs requestId userName userId now
    req sh hfind hsnap hany hreq, rfl, rfl⟩

/-- C2 amended witness: re-accepting the declined request at the concrete
database re-applies both writes. -/
theorem respond_ignores_prior_status_witness :
    ∃ db2, handleSwapResponse declinedDb [declinedReq] "r1" true "Sarah Johnson" "u2" "t1" =
      some db2 ∧
      db2.swapRequests = [declinedReq].map (fun r =>
        if r.id == "r1" then applySwapPatch { status := some .accepted } r else r) ∧
      db2.shifts = [johnShift].map (fun s =>
        if s.id == johnShift.id then
          applyShiftPatch
            { employeeId := some declinedReq.toEmployeeId
              employeeName := some declinedReq.toEmployeeName } s
        else s) :=
  respond_ignores_prior_status declinedDb [declinedReq] "r1" "Sarah Johnson" "u2" "t1"
    declinedReq johnShift (by decide) (by decide) (by decide) (by decide) (by decide)

/-- Employee account whose display name starts with "John". -/
def johnSmithUser : AppUser :=
  { id := "acct1", email := "john.smith@x.com", name := "John Smith", role := "employee" }

/-- A second, distinct account whose display name also starts with "John",
so both derive the same short id. -/
def johnDoeUser : AppUser :=
  { id := "acct2", email := "john.doe@x.com", name := "John Doe", role := "employee" }

/-- An empty database. -/
def emptyDb : DB :=
  { shifts := [], swapRequests := [], activityLogs := [] }

/-- C3 counterexample.  Two distinct accounts derive the same short id
"john"; the swap modal still offers the second one (its guard compares
durable account ids only), and confirming the swap persists a SwapRequest
whose requester and recipient short ids are equal — no ValidationError is
raised and the record is stored. -/
theorem swap_same_shortId_counterexample :
    shortId johnSmithUser.name = shortId johnDoeUser.name ∧
    availableEmployees [johnSmithUser, johnDoeUser] johnSmithUser.id = [johnDoeUser] ∧
    (handleSwapConfirm emptyDb "John Smith" "acct1" (some johnShift)
        "acct2" "John Doe" "r9" "t2").swapRequests =
      [{ id := "r9", fromEmployeeId := "john", fromEmployeeName := "John Smith",
         toEmployeeId := "john", toEmployeeName := "John Doe", shiftId := "s1",
         shift := some johnShift, status := .pending, createdAt := "t2" }] := by
  refine ⟨?_, ?_, ?_⟩ <;> decide

/-- C3 amended.  Creation does not fail when requester and recipient derive
the same short identifier: the only guard excludes the requester's own
durable account id from the target list, and the confirmed request is
persisted with `fromEmployeeId = toEmployeeId` and status `pending`. -/
theorem swap_request_same_shortId_persisted
    (db : DB) (userName userId : String) (sh : Shift) (rid now : String)
    (employees : List AppUser) (target : AppUser)
    (hmem : target ∈ employees) (hne : target.id ≠ userId)
    (hshort : shortId userName = shortId target.name) :
    target ∈ availableEmployees employees userId ∧
    ∃ r ∈ (handleSwapConfirm db userName userId (some sh)
        target.id target.name rid now).swapRequests,
      r.fromEmployeeId = r.toEmployeeId ∧ r.status = SwapStatus.pending ∧ r.id = rid := by
  constructor
  · simp [availableEmployees, List.mem_filter, hmem, hne]
  · exact ⟨
      { id := rid
        fromEmployeeId := shortId userName
        fromEmployeeName := userName
        toEmployeeId := shortId target.name
        toEmployeeName := target.name
        shiftId := sh.id
        shift := some sh
        status := .pending
        createdAt := now },
      by simp [handleSwapConfirm, addSwapRequest, addActivityLog],
      by simpa using hshort, rfl, rfl⟩

/-- C3 amended witness: the John Smith / John Doe collision at the empty
database. -/
theorem swap_request_same_shortId_persisted_witness :
    johnDoeUser ∈ availableEmployees [johnSmithUser, johnDoeUser] johnSmithUser.id ∧
    ∃ r ∈ (handleSwapConfirm emptyDb "John Smith" johnSmithUser.id (some johnShift)
        johnDoeUser.id johnDoeUser.name "r9" "t2").swapRequests,
      r.fromEmployeeId = r.toEmployeeId ∧ r.status = SwapStatus.pending ∧ r.id = "r9" :=
  swap_request_same_shortId_persisted emptyDb "John Smith" johnSmithUser.id johnShift "r9" "t2"
    [johnSmithUser, johnDoeUser] johnDoeUser (by decide) (by decide) (by decide)

/-- Membership through one `insertUnique` step. -/
theorem mem_insertUnique (ks : List String) (k x : String) :
    x ∈ insertUnique ks k ↔ x ∈ ks ∨ x = k := by
  by_cases h : k ∈ ks
  · simp only [insertUnique, if_pos h]
    exact ⟨Or.inl, fun h2 => h2.elim id (fun hx => hx ▸ h)⟩
  · simp [insertUnique, if_neg h]

/-- Membership through the whole fold. -/
theorem mem_foldl_insertUnique (l : List String) (acc : List String) (x : String) :
    x ∈ l.foldl insertUnique acc ↔ x ∈ acc ∨ x ∈ l := by
  induction l generalizing acc with
  | nil => simp
  | cons a t ih =>
    rw [List.foldl_cons, ih, mem_insertUnique]
    simp only [List.mem_cons]
    tauto

/-- `uniqueList` keeps exactly the values of the input. -/
theorem mem_uniqueList (l : List String) (x : String) :
    x ∈ uniqueList l ↔ x ∈ l := by
  simp [uniqueList, mem_foldl_insertUnique]

/-- A list holding two different elements has more than one entry. -/
theorem one_lt_length_of_two_mem {α : Type} {l : List α} {a b : α}
    (ha : a ∈ l) (hb : b ∈ l) (hne : a ≠ b) : 1 < l.length := by
  match l with
  | [] => simp at ha
  | [x] =>
    rw [List.mem_singleton] at ha hb
    exact absurd (ha.trans hb.symm) hne
  | x :: y :: t =>
    simp only [List.length_cons]
    omega

/-- Two shifts that differ only in type, sharing owner and date. -/
def dupDayShift : Shift :=
  { id := "a1", employeeId := "john", employeeName := "John Smith", date := "2024-11-20",
    type := .day, startTime := "08:00", endTime := "16:00" }

/-- Same owner and date as `dupDayShift`, night type. -/
def dupNightShift : Shift :=
  { id := "a2", employeeId := "john", employeeName := "John Smith", date := "2024-11-20",
    type := .night, startTime := "00:00", endTime := "08:00" }

/-- C6 counterexample.  Two distinct shifts with the same owner and the same
date but different types are NOT reported by the duplicate scan: its
grouping key is `date-type-employeeId`, so the scan of this
two-shift store reports nothing, contradicting the claim that every
same-(owner, date) pair is reported regardless of type. -/
theorem duplicate_scan_counterexample :
    dupDayShift.employeeId = dupNightShift.employeeId ∧
    dupDayShift.date = dupNightShift.date ∧
    dupDayShift ≠ dupNightShift ∧
    dupesFound [dupDayShift, dupNightShift] = [] := by
  refine ⟨rfl, rfl, by decide, by decide⟩

/-- C6 amended.  The duplicate scan reports a duplicate for every pair of
distinct stored shifts sharing the full `(date, type, employeeId)` key
triple; pairs sharing only owner and date while differing in type are not
reported (see the counterexample). -/
theorem duplicate_scan_same_triple_reported
    (shifts : List Shift) (s1 s2 : Shift)
    (h1 : s1 ∈ shifts) (h2 : s2 ∈ shifts) (hne : s1 ≠ s2)
    (hdate : s1.date = s2.date) (htype : s1.type = s2.type)
    (hemp : s1.employeeId = s2.employeeId) :
    dupesFound shifts ≠ [] := by
  have hkey : dupKey s2 = dupKey s1 := by simp [dupKey, hdate, htype, hemp]
  have hk : dupKey s1 ∈ uniqueList (shifts.map dupKey) :=
    (mem_uniqueList _ _).mpr (List.mem_map_of_mem _ h1)
  have hg : shifts.filter (fun s => dupKey s == dupKey s1) ∈ duplicateGroups shifts :=
    List.mem_map_of_mem _ hk
  have hs1g : s1 ∈ shifts.filter (fun s => dupKey s == dupKey s1) :=
    List.mem_filter.mpr ⟨h1, by simp⟩
  have hs2g : s2 ∈ shifts.filter (fun s => dupKey s == dupKey s1) :=
    List.mem_filter.mpr ⟨h2, by simp [hkey]⟩
  have hlen : 1 < (shifts.filter (fun s => dupKey s == dupKey s1)).length :=
    one_lt_length_of_two_mem hs1g hs2g hne
  exact List.ne_nil_of_mem (List.mem_filter.mpr ⟨hg, by simpa using hlen⟩)

/-- A true duplicate of `dupDayShift`: same key triple, different id. -/
def dupDayShiftCopy : Shift :=
  { dupDayShift with id := "a3" }

/-- C6 amended witness: a same-triple pair is reported. -/
theorem duplicate_scan_same_triple_reported_witness :
    dupesFound [dupDayShift, dupDayShiftCopy] ≠ [] :=
  duplicate_scan_same_triple_reported [dupDayShift, dupDayShiftCopy] dupDayShift dupDayShiftCopy
    (by decide) (by decide) (by decide) (by decide) (by decide) (by decide)

/-- Sarah's shift for the correlation scenario: owners are {john, sarah}. -/
def sarahShift : Shift :=
  { id := "s2", employeeId := "sarah", employeeName := "Sarah Johnson", date := "2024-11-28",
    type := .afternoon, startTime := "16:00", endTime := "00:00" }

/-- The defective swap request of concrete scenario C: its recipient field
holds a durable account id instead of a short id. -/
def accountIdSwap : SwapRequest :=
  { id := "w1", fromEmployeeId := "john", fromEmployeeName := "John Smith",
    toEmployeeId := "U8qG4fNEydUbNFcw4QxE", toEmployeeName := "Sarah Johnson",
    shiftId := "s1", shift := none, status := .pending, createdAt := "t0" }

/-- C7.  The correlation check (a pure, read-only function of the two
collections) reports every identifier appearing in a requester or recipient
field of a swap request but absent from the shift owners; and on the
concrete scenario — owners {john, sarah}, one request whose recipient field
holds the durable account id — it emits exactly one warning line, naming
exactly that identifier. -/
theorem correlation_check_reports_unknown_ids :
    (∀ (shifts : List Shift) (swaps : List SwapRequest) (i : String),
      swaps ≠ [] →
      (i ∈ swaps.map (fun r => r.fromEmployeeId) ∨ i ∈ swaps.map (fun r => r.toEmployeeId)) →
      i ∉ shifts.map (fun s => s.employeeId) →
      ∃ w ∈ correlationWarnings shifts swaps, i ∈ w.2) ∧
    correlationWarnings [johnShift, sarahShift] [accountIdSwap] =
      [("toEmployeeIds", ["U8qG4fNEydUbNFcw4QxE"])] := by
  constructor
  · intro shifts swaps i hswaps hin habs
    have hlen : swaps.length > 0 := List.length_pos.mpr hswaps
    have hni : i ∉ shiftEmployeeIdSet shifts := fun h =>
      habs ((mem_uniqueList _ _).mp h)
    cases hin with
    | inl hfrom =>
      have hmf : i ∈ mismatchedFrom shifts swaps :=
        List.mem_filter.mpr ⟨(mem_uniqueList _ _).mpr hfrom, by simp [hni]⟩
      refine ⟨("fromEmployeeIds", mismatchedFrom shifts swaps), ?_, hmf⟩
      unfold correlationWarnings
      rw [if_pos hlen]
      refine List.mem_append_left _ ?_
      rw [if_pos (List.length_pos.mpr (List.ne_nil_of_mem hmf))]
      exact List.mem_singleton_self _
    | inr hto =>
      have hmt : i ∈ mismatchedTo shifts swaps :=
        List.mem_filter.mpr ⟨(mem_uniqueList _ _).mpr hto, by simp [hni]⟩
      refine ⟨("toEmployeeIds", mismatchedTo shifts swaps), ?_, hmt⟩
      unfold correlationWarnings
      rw [if_pos hlen]
      refine List.mem_append_right _ ?_
      rw [if_pos (List.length_pos.mpr (List.ne_nil_of_mem hmt))]
      exact List.mem_singleton_self _
  · decide

/-- C7 witness: the scenario identifier is indeed named by a warning. -/
theorem correlation_check_reports_unknown_ids_witness :
    ∃ w ∈ correlationWarnings [johnShift, sarahShift] [accountIdSwap],
      "U8qG4fNEydUbNFcw4QxE" ∈ w.2 :=
  correlation_check_reports_unknown_ids.1 [johnShift, sarahShift] [accountIdSwap]
    "U8qG4fNEydUbNFcw4QxE" (by decide) (Or.inr (by decide)) (by decide)

/-- C8.  Every subscribed batch is delivered fully enriched: a request
lacking its snapshot (with a truthy shiftId) is backfilled by the by-id
lookup when the lookup finds the shift, and is delivered unchanged — shift
details unavailable, nothing thrown — when the document is missing or the
lookup fails; the callback argument is the map of the enrichment over the
whole filtered batch (the model of `Promise.all` having settled every
lookup), so it drops no request. -/
theorem subscription_enrichment
    (lookup : String → Except Unit (Option Shift)) (store : List SwapRequest)
    (employeeId : String) (req : SwapRequest)
    (hmem : req ∈ store.filter (fun r => r.toEmployeeId == employeeId))
    (hnone : req.shift = none) (hid : req.shiftId ≠ "") :
    enrichSwapRequest lookup req =
      (match lookup req.shiftId with
       | .ok (some sh) => { req with shift := some sh }
       | .ok none => req
       | .error _ => req) ∧
    enrichSwapRequest lookup req ∈ swapSubscriptionBatch store employeeId lookup ∧
    (swapSubscriptionBatch store employeeId lookup).length =
      (store.filter (fun r => r.toEmployeeId == employeeId)).length := by
  refine ⟨?_, ?_, ?_⟩
  · simp only [enrichSwapRequest, hnone]
    rw [if_pos hid]
  · exact List.mem_map_of_mem _ hmem
  · simp [swapSubscriptionBatch]

/-- A stored request missing its snapshot, addressed to sarah. -/
def unenrichedReq : SwapRequest :=
  { id := "q1", fromEmployeeId := "john", fromEmployeeName := "John Smith",
    toEmployeeId := "sarah", toEmployeeName := "Sarah Johnson", shiftId := "s1",
    shift := none, status := .pending, createdAt := "t0" }

/-- A concrete lookup oracle: the store holds exactly `johnShift`. -/
def oneShiftLookup (sid : String) : Except Unit (Option Shift) :=
  if sid == "s1" then .ok (some johnShift) else .ok none

/-- C8 witness: the concrete batch is delivered enriched. -/
theorem subscription_enrichment_witness :
    enrichSwapRequest oneShiftLookup unenrichedReq =
      (match oneShiftLookup unenrichedReq.shiftId with
       | .ok (some sh) => { unenrichedReq with shift := some sh }
       | .ok none => unenrichedReq
       | .error _ => unenrichedReq) ∧
    enrichSwapRequest oneShiftLookup unenrichedReq ∈
      swapSubscriptionBatch [unenrichedReq] "sarah" oneShiftLookup ∧
    (swapSubscriptionBatch [unenrichedReq] "sarah" oneShiftLookup).length =
      ([unenrichedReq].filter (fun r => r.toEmployeeId == "sarah")).length :=
  subscription_enrichment oneShiftLookup [unenrichedReq] "sarah" unenrichedReq
    (by decide) (by decide) (by decide)

/-- C10.  Signup writes only email, name and the default employee role — no
password field — and appends the raw credentials to the in-memory list; the
login branch matching stored users by `u.password` can therefore never
return the signed-up user, so that user can only log in through an
in-memory credential entry matching their email and password. -/
theorem signup_persists_no_password
    (users : List StoredUser) (creds : List Credential)
    (newId name email pw p : String) (mgr : Credential) (creds2 : List Credential)
    (hfresh : users.any (fun u => u.email.toLower == email.toLower) = false) :
    handleSignup users creds newId name email pw =
      (users ++ [signedUpUser newId name email],
       creds ++ [{ email := email, name := name, password := pw }], true) ∧
    (signedUpUser newId name email).password = none ∧
    ((signedUpUser newId name email).email == email &&
      (signedUpUser newId name email).password == some p) = false ∧
    (handleLogin (users ++ [signedUpUser newId name email]) mgr creds2 email p =
        some (signedUpUser newId name email) →
      ∃ c ∈ creds2, c.email = email ∧ c.password = p) := by
  have emp : ∀ h2 : (users ++ [signedUpUser newId name email]).find?
        (fun u => u.email == email && u.password == some p) =
        some (signedUpUser newId name email),
      ∃ c ∈ creds2, c.email = email ∧ c.password = p := by
    intro h2
    have hpred := List.find?_some h2
    simp [signedUpUser] at hpred
  have viaCreds : ∀ c : Credential, creds2.find?
        (fun c => c.email == email && c.password == p) = some c →
      ∃ c ∈ creds2, c.email = email ∧ c.password = p := by
    intro c hfc
    have hc := List.find?_some hfc
    rw [Bool.and_eq_true, beq_iff_eq, beq_iff_eq] at hc
    exact ⟨c, List.mem_of_find?_eq_some hfc, hc.1, hc.2⟩
  refine ⟨by simp [handleSignup, hfresh], rfl, by simp [signedUpUser], ?_⟩
  intro hlogin
  simp only [handleLogin] at hlogin
  by_cases hm : (email == mgr.email && p == mgr.password) = true
  · rw [if_pos hm] at hlogin
    cases hfm : (users ++ [signedUpUser newId name email]).find?
        (fun u => u.role == "manager") with
    | some m =>
      rw [hfm] at hlogin
      have hrole := List.find?_some hfm
      have hmu : m = signedUpUser newId name email := by simpa using hlogin
      rw [hmu] at hrole
      simp [signedUpUser] at hrole
    | none =>
      rw [hfm] at hlogin
      cases hfc : creds2.find? (fun c => c.email == email && c.password == p) with
      | some c => exact viaCreds c hfc
      | none =>
        rw [hfc] at hlogin
        exact emp hlogin
  · rw [if_neg hm] at hlogin
    cases hfc : creds2.find? (fun c => c.email == email && c.password == p) with
    | some c => exact viaCreds c hfc
    | none =>
      rw [hfc] at hlogin
      exact emp hlogin

/-- C10 witness: signing Jane Roe up in a fresh process stores no password
and queues her credentials; a later login can only come through them. -/
theorem signup_persists_no_password_witness :
    handleSignup [] [] "id1" "Jane Roe" "jane@x.com" "pw" =
      ([] ++ [signedUpUser "id1" "Jane Roe" "jane@x.com"],
       [] ++ [{ email := "jane@x.com", name := "Jane Roe", password := "pw" }], true) ∧
    (signedUpUser "id1" "Jane Roe" "jane@x.com").password = none ∧
    ((signedUpUser "id1" "Jane Roe" "jane@x.com").email == "jane@x.com" &&
      (signedUpUser "id1" "Jane Roe" "jane@x.com").password == some "pw") = false ∧
    (handleLogin ([] ++ [signedUpUser "id1" "Jane Roe" "jane@x.com"])
        { email := "m@x.com", name := "M", password := "mp" }
        [{ email := "jane@x.com", name := "Jane Roe", password := "pw" }] "jane@x.com" "pw" =
        some (signedUpUser "id1" "Jane Roe" "jane@x.com") →
      ∃ c ∈ [({ email := "jane@x.com", name := "Jane Roe", password := "pw" } : Credential)],
        c.email = "jane@x.com" ∧ c.password = "pw") :=
  signup_persists_no_password [] [] "id1" "Jane Roe" "jane@x.com" "pw" "pw"
    { email := "m@x.com", name := "M", password := "mp" }
    [{ email := "jane@x.com", name := "Jane Roe", password := "pw" }] (by decide)

/-- Moving the element stored at position `k` to the front while writing `x`
into its slot permutes a cons. -/
theorem set_cons_perm {α : Type} :
    ∀ (t : List α) (k : Nat) (b x : α), t[k]? = some b →
      List.Perm (b :: t.set k x) (x :: t)
  | [], k, b, x, h => by simp at h
  | y :: u, 0, b, x, h => by
    simp only [List.getElem?_cons_zero, Option.some.injEq] at h
    subst h
    exact List.Perm.swap x y u
  | y :: u, k + 1, b, x, h => by
    simp only [List.getElem?_cons_succ] at h
    exact List.Perm.trans (List.Perm.swap y b (u.set k x))
      (List.Perm.trans ((set_cons_perm u k b x h).cons y) (List.Perm.swap x y u))

/-- Writing each of two stored elements into the position of the other
permutes the list. -/
theorem set_set_perm_of_getElem {α : Type} :
    ∀ (l : List α) (i j : Nat) (a b : α),
      l[i]? = some a → l[j]? = some b → List.Perm ((l.set i b).set j a) l
  | [], _, _, _, _, ha, _ => by simp at ha
  | x :: t, 0, 0, a, b, ha, hb => by
    simp only [List.getElem?_cons_zero, Option.some.injEq] at ha hb
    subst ha
    subst hb
    rfl
  | x :: t, 0, j + 1, a, b, ha, hb => by
    simp only [List.getElem?_cons_zero, List.getElem?_cons_succ, Option.some.injEq] at ha hb
    subst ha
    exact set_cons_perm t j b x hb
  | x :: t, i + 1, 0, a, b, ha, hb => by
    simp only [List.getElem?_cons_zero, List.getElem?_cons_succ, Option.some.injEq] at ha hb
    subst hb
    exact set_cons_perm t i a x ha
  | x :: t, i + 1, j + 1, a, b, ha, hb => by
    simp only [List.getElem?_cons_succ] at ha hb
    exact (set_set_perm_of_getElem t i j a b ha hb).cons x

/-- A swap step permutes the list. -/
theorem swapElems_perm {α : Type} (l : List α) (i j : Nat) :
    List.Perm (swapElems l i j) l := by
  unfold swapElems
  cases ha : l[i]? with
  | none => exact List.Perm.refl l
  | some a =>
    cases hb : l[j]? with
    | none => exact List.Perm.refl l
    | some b => exact set_set_perm_of_getElem l i j a b ha hb

/-- The whole Fisher-Yates loop permutes the list. -/
theorem fisherYatesAux_perm {α : Type} (randj : Nat → Nat) :
    ∀ (n : Nat) (arr : List α), List.Perm (fisherYatesAux randj n arr) arr
  | 0, arr => List.Perm.refl arr
  | n + 1, arr =>
    (fisherYatesAux_perm randj n _).trans
      (swapElems_perm arr (n + 1) (randj (n + 1) % (n + 2)))

/-- `shuffleArray` returns a permutation of its input. -/
theorem shuffleArray_perm {α : Type} (randj : Nat → Nat) (l : List α) :
    List.Perm (shuffleArray randj l) l := by
  unfold shuffleArray
  cases l.length with
  | zero => exact List.Perm.refl l
  | succ n => exact fisherYatesAux_perm randj n l

/-- The employee ids handed out by one day of assignments are pairwise
distinct: the five are consecutive entries of a shuffled copy of the
roster, whose ids are distinct. -/
theorem generateDayAssignments_ids_nodup (randj : Nat → Nat) :
    ((generateDayAssignments randj).map (fun a => a.employeeId)).Nodup := by
  have hperm : List.Perm ((shuffleArray randj EMPLOYEES).map Prod.fst)
      (EMPLOYEES.map Prod.fst) :=
    (shuffleArray_perm randj EMPLOYEES).map Prod.fst
  have hnd : ((shuffleArray randj EMPLOYEES).map Prod.fst).Nodup :=
    hperm.nodup_iff.mpr (by decide)
  unfold generateDayAssignments
  rcases hsh : shuffleArray randj EMPLOYEES with _ | ⟨e0, _ | ⟨e1, _ | ⟨e2, _ | ⟨e3, _ | ⟨e4, rest⟩⟩⟩⟩⟩ <;>
    simp only [List.map_nil, List.map_cons, List.nodup_nil]
  rw [hsh] at hnd
  simp only [List.map_cons] at hnd
  exact hnd.sublist
    ((List.Sublist.cons₂ _ (List.Sublist.cons₂ _ (List.Sublist.cons₂ _ (List.Sublist.cons₂ _
      (List.Sublist.cons₂ _ (List.nil_sublist _)))))))

/-- Filtering the per-day blocks to one date keeps at most the one block of
that date, whose employee ids are pairwise distinct. -/
theorem dayBlocks_filter_nodup (randj : Nat → Nat → Nat) (d : Nat) :
    ∀ days : List Nat, days.Nodup →
      (((days.flatMap (fun d2 => (generateDayAssignments (randj d2)).map (fun a =>
          ({ date := d2, employeeId := a.employeeId, employeeName := a.employeeName,
             type := a.type, startTime := (SHIFT_TIMES a.type).1,
             endTime := (SHIFT_TIMES a.type).2 } : GenShift)))).filter
        (fun s => s.date == d)).map (fun s => s.employeeId)).Nodup
  | [], _ => by simp
  | d2 :: rest, hnd => by
    have htail := (List.nodup_cons.mp hnd).2
    have hhead := (List.nodup_cons.mp hnd).1
    rw [List.flatMap_cons, List.filter_append, List.map_append]
    by_cases hd : d2 = d
    · subst hd
      have hblock : ((generateDayAssignments (randj d2)).map (fun a =>
          ({ date := d2, employeeId := a.employeeId, employeeName := a.employeeName,
             type := a.type, startTime := (SHIFT_TIMES a.type).1,
             endTime := (SHIFT_TIMES a.type).2 } : GenShift))).filter
            (fun s => s.date == d2) =
          (generateDayAssignments (randj d2)).map (fun a =>
          ({ date := d2, employeeId := a.employeeId, employeeName := a.employeeName,
             type := a.type, startTime := (SHIFT_TIMES a.type).1,
             endTime := (SHIFT_TIMES a.type).2 } : GenShift)) := by
        rw [List.filter_eq_self]
        intro s hs
        rcases List.mem_map.mp hs with ⟨a, _, rfl⟩
        simp
      have hrest : (rest.flatMap (fun d3 => (generateDayAssignments (randj d3)).map (fun a =>
          ({ date := d3, employeeId := a.employeeId, employeeName := a.employeeName,
             type := a.type, startTime := (SHIFT_TIMES a.type).1,
             endTime := (SHIFT_TIMES a.type).2 } : GenShift)))).filter
            (fun s => s.date == d2) = [] := by
        rw [List.filter_eq_nil_iff]
        intro s hs
        rcases List.mem_flatMap.mp hs with ⟨d3, hd3, hsmem⟩
        rcases List.mem_map.mp hsmem with ⟨a, _, rfl⟩
        simp only [beq_iff_eq]
        intro hcon
        exact hhead (hcon ▸ hd3)
      rw [hblock, hrest, List.map_nil, List.append_nil, List.map_map]
      exact generateDayAssignments_ids_nodup (randj d2)
    · have hblock : ((generateDayAssignments (randj d2)).map (fun a =>
          ({ date := d2, employeeId := a.employeeId, employeeName := a.employeeName,
             type := a.type, startTime := (SHIFT_TIMES a.type).1,
             endTime := (SHIFT_TIMES a.type).2 } : GenShift))).filter
            (fun s => s.date == d) = [] := by
        rw [List.filter_eq_nil_iff]
        intro s hs
        rcases List.mem_map.mp hs with ⟨a, _, rfl⟩
        simpa using hd
      rw [hblock, List.map_nil, List.nil_append]
      exact dayBlocks_filter_nodup randj d rest htail

/-- C5.  Every schedule produced by `generateBalancedShifts` assigns each
employee at most one shift per calendar date: for every date, the employee
ids of that day's generated shifts are pairwise distinct (they are five
distinct entries of one shuffled roster permutation). -/
theorem generator_one_shift_per_employee_per_day
    (randj : Nat → Nat → Nat) (startDay endDay d : Nat) :
    (((generateBalancedShifts randj startDay endDay).filter (fun s => s.date == d)).map
      (fun s => s.employeeId)).Nodup := by
  unfold generateBalancedShifts
  exact dayBlocks_filter_nodup randj d (List.range' startDay (endDay + 1 - startDay))
    (List.nodup_range' _ _)

/-- The fallback comparator is transitive. -/
theorem dateLe_transitive :
    ∀ (a b c : Shift), dateLe a b = true → dateLe b c = true → dateLe a c = true := by
  intro a b c h1 h2
  simp only [dateLe, decide_eq_true_eq] at h1 h2 ⊢
  exact le_trans h1 h2

/-- The fallback comparator is total. -/
theorem dateLe_totality : ∀ (a b : Shift), (dateLe a b || dateLe b a) = true := by
  intro a b
  simp only [dateLe, Bool.or_eq_true, decide_eq_true_eq]
  exact le_total a.date b.date

/-- The indexed-path comparator is transitive. -/
theorem dateIdLe_transitive :
    ∀ (a b c : Shift), dateIdLe a b = true → dateIdLe b c = true → dateIdLe a c = true := by
  intro a b c h1 h2
  simp only [dateIdLe, Bool.or_eq_true, Bool.and_eq_true, decide_eq_true_eq,
    beq_iff_eq] at h1 h2 ⊢
  rcases h1 with h1 | ⟨h1e, h1i⟩ <;> rcases h2 with h2 | ⟨h2e, h2i⟩
  · exact Or.inl (lt_trans h1 h2)
  · exact Or.inl (h2e ▸ h1)
  · exact Or.inl (h1e ▸ h2)
  · exact Or.inr ⟨h1e.trans h2e, le_trans h1i h2i⟩

/-- The indexed-path comparator is total. -/
theorem dateIdLe_totality : ∀ (a b : Shift), (dateIdLe a b || dateIdLe b a) = true := by
  intro a b
  simp only [dateIdLe, Bool.or_eq_true, Bool.and_eq_true, decide_eq_true_eq, beq_iff_eq]
  rcases lt_trichotomy a.date b.date with h | h | h
  · exact Or.inl (Or.inl h)
  · rcases le_total a.id b.id with hi | hi
    · exact Or.inl (Or.inr ⟨h, hi⟩)
    · exact Or.inr (Or.inr ⟨h.symm, hi⟩)
  · exact Or.inr (Or.inl h)

/-- A collection enumerated in strictly increasing document-id order has no
repeated documents. -/
theorem nodup_of_idSorted {l : List Shift}
    (hl : l.Pairwise (fun a b => a.id < b.id)) : l.Nodup := by
  refine hl.imp ?_
  intro a b h he
  rw [he] at h
  exact lt_irrefl _ h

/-- In such a collection, documents are determined by their id. -/
theorem id_inj_of_idSorted {l : List Shift}
    (hl : l.Pairwise (fun a b => a.id < b.id)) :
    ∀ a ∈ l, ∀ b ∈ l, a.id = b.id → a = b := by
  intro a ha b hb hid
  obtain ⟨ia, hia, hga⟩ := List.mem_iff_getElem.mp ha
  obtain ⟨ib, hib, hgb⟩ := List.mem_iff_getElem.mp hb
  have hpw := List.pairwise_iff_getElem.mp hl
  rcases lt_trichotomy ia ib with h | h | h
  · have hlt := hpw ia ib hia hib h
    rw [hga, hgb] at hlt
    exact absurd hid (ne_of_lt hlt)
  · subst h
    rw [hga] at hgb
    exact hgb
  · have hlt := hpw ib ia hib hia h
    rw [hga, hgb] at hlt
    exact absurd hid.symm (ne_of_lt hlt)

/-- Stability of the client-side sort: on a collection fetched in ascending
document-id order, sorting by date alone already yields the full
date-then-id order, because the stable merge sort keeps equal-date documents
in their incoming id order. -/
theorem mergeSort_dateLe_sorted_dateIdLe (l : List Shift)
    (hl : l.Pairwise (fun a b => a.id < b.id)) :
    (l.mergeSort dateLe).Pairwise (fun a b => dateIdLe a b = true) := by
  have hperm := List.mergeSort_perm l dateLe
  have hnd : l.Nodup := nodup_of_idSorted hl
  have hnd1 : (l.mergeSort dateLe).Nodup := hperm.nodup_iff.mpr hnd
  have hsorted := List.sorted_mergeSort dateLe_transitive dateLe_totality l
  rw [List.pairwise_iff_getElem]
  intro i j hi hj hij
  have hpwd := List.pairwise_iff_getElem.mp hsorted i j hi hj hij
  by_cases hltd : (l.mergeSort dateLe)[i].date < (l.mergeSort dateLe)[j].date
  · simp only [dateIdLe, Bool.or_eq_true, decide_eq_true_eq]
    exact Or.inl hltd
  · have hde : (l.mergeSort dateLe)[i].date = (l.mergeSort dateLe)[j].date := by
      have hle : (l.mergeSort dateLe)[i].date ≤ (l.mergeSort dateLe)[j].date := by
        simpa [dateLe] using hpwd
      exact le_antisymm hle (not_lt.mp hltd)
    simp only [dateIdLe, Bool.or_eq_true, Bool.and_eq_true, decide_eq_true_eq, beq_iff_eq]
    refine Or.inr ⟨hde, ?_⟩
    by_contra hgt
    push_neg at hgt
    have hmema : (l.mergeSort dateLe)[i] ∈ l := hperm.subset (List.getElem_mem hi)
    have hmemb : (l.mergeSort dateLe)[j] ∈ l := hperm.subset (List.getElem_mem hj)
    obtain ⟨ia, hia, hga⟩ := List.mem_iff_getElem.mp hmema
    obtain ⟨ib, hib, hgb⟩ := List.mem_iff_getElem.mp hmemb
    have hpwid := List.pairwise_iff_getElem.mp hl
    have hibia : ib < ia := by
      rcases lt_trichotomy ia ib with h | h | h
      · have hx := hpwid ia ib hia hib h
        rw [hga, hgb] at hx
        exact absurd hx (not_lt.mpr (le_of_lt hgt))
      · exfalso
        subst h
        rw [hga] at hgb
        have := (hnd1.getElem_inj_iff).mp hgb
        omega
      · exact h
    have hpair : List.Sublist [l[ib], l[ia]] l := by
      have hstep := @List.map_getElem_sublist _ l [⟨ib, hib⟩, ⟨ia, hia⟩]
        (by simp [List.pairwise_pair, Fin.mk_lt_mk, hibia])
      simpa using hstep
    rw [hga, hgb] at hpair
    have hpairS : ([(l.mergeSort dateLe)[j], (l.mergeSort dateLe)[i]]).Pairwise
        (fun a b => dateLe a b = true) := by
      rw [List.pairwise_pair]
      simp only [dateLe, decide_eq_true_eq]
      exact le_of_eq hde.symm
    have hsub : List.Sublist [(l.mergeSort dateLe)[j], (l.mergeSort dateLe)[i]]
        (l.mergeSort dateLe) :=
      List.sublist_mergeSort dateLe_transitive dateLe_totality hpairS hpair
    obtain ⟨is, his, hispw⟩ := List.sublist_eq_map_getElem hsub
    rcases is with _ | ⟨p, _ | ⟨q, _ | ⟨w, rest⟩⟩⟩ <;> simp at his
    obtain ⟨h1, h2⟩ := his
    have hpq : (p : Nat) < (q : Nat) := by
      have := List.pairwise_pair.mp hispw
      exact this
    have hpj : (p : Nat) = j := (hnd1.getElem_inj_iff).mp h1.symm
    have hqi : (q : Nat) = i := (hnd1.getElem_inj_iff).mp h2.symm
    omega

/-- Prefixing `a` commutes with an append whose left part is all `a`. -/
theorem cons_append_eq_of_forall_eq {α : Type} (a : α) :
    ∀ (u v : List α), (∀ x ∈ u, x = a) → a :: (u ++ v) = u ++ a :: v
  | [], _, _ => rfl
  | x :: u, v, h => by
    have hx : x = a := h x (List.mem_cons_self x u)
    subst hx
    have ih := cons_append_eq_of_forall_eq x u v
      (fun y hy => h y (List.mem_cons_of_mem x hy))
    simp only [List.cons_append]
    rw [ih]

/-- Two sorted permutations of each other are equal, needing antisymmetry of
the order only on the members of the lists. -/
theorem eq_of_perm_of_pairwise {α : Type} {r : α → α → Prop} :
    ∀ {l₁ l₂ : List α}, List.Perm l₁ l₂ → l₁.Pairwise r → l₂.Pairwise r →
      (∀ a ∈ l₁, ∀ b ∈ l₁, r a b → r b a → a = b) → l₁ = l₂ := by
  intro l₁
  induction l₁ with
  | nil =>
    intro l₂ hp _ _ _
    exact hp.nil_eq
  | cons a t ih =>
    intro l₂ hp hs₁ hs₂ hanti
    have ha2 : a ∈ l₂ := hp.subset (List.mem_cons_self a t)
    obtain ⟨u₂, v₂, rfl⟩ := List.append_of_mem ha2
    have hp' : List.Perm t (u₂ ++ v₂) := (List.perm_cons a).mp (hp.trans List.perm_middle)
    have hcons := List.pairwise_cons.mp hs₁
    have hs₂' : (u₂ ++ v₂).Pairwise r :=
      hs₂.sublist ((List.sublist_cons_self a v₂).append_left u₂)
    have hanti' : ∀ x ∈ t, ∀ y ∈ t, r x y → r y x → x = y := fun x hx y hy =>
      hanti x (List.mem_cons_of_mem a hx) y (List.mem_cons_of_mem a hy)
    have heq := ih hp' hcons.2 hs₂' hanti'
    rw [heq]
    apply cons_append_eq_of_forall_eq
    intro x hx
    have hxt : x ∈ t := by
      rw [heq]
      exact List.mem_append_left v₂ hx
    have hrxa : r x a := (List.pairwise_append.mp hs₂).2.2 x hx a (List.mem_cons_self a v₂)
    have hrax : r a x := hcons.1 x hxt
    exact hanti x (List.mem_cons_of_mem a hxt) a (List.mem_cons_self a t) hrxa hrax

/-- On an id-ascending collection, the client-side date-only stable sort
produces exactly the server's date-then-id order. -/
theorem mergeSort_fallback_eq (l : List Shift)
    (hl : l.Pairwise (fun a b => a.id < b.id)) :
    l.mergeSort dateLe = l.mergeSort dateIdLe := by
  apply eq_of_perm_of_pairwise
    ((List.mergeSort_perm l dateLe).trans (List.mergeSort_perm l dateIdLe).symm)
    (mergeSort_dateLe_sorted_dateIdLe l hl)
    (List.sorted_mergeSort dateIdLe_transitive dateIdLe_totality l)
  intro a ha b hb hab hba
  have ha2 : a ∈ l := List.mem_mergeSort.mp ha
  have hb2 : b ∈ l := List.mem_mergeSort.mp hb
  simp only [dateIdLe, Bool.or_eq_true, Bool.and_eq_true, decide_eq_true_eq,
    beq_iff_eq] at hab hba
  rcases hab with h1 | ⟨h1e, h1i⟩ <;> rcases hba with h2 | ⟨h2e, h2i⟩
  · exact absurd h2 (not_lt.mpr (le_of_lt h1))
  · exfalso
    rw [h2e] at h1
    exact lt_irrefl _ h1
  · exfalso
    rw [h1e] at h2
    exact lt_irrefl _ h2
  · exact id_inj_of_idSorted hl a ha2 b hb2 (le_antisymm h1i h2i)

/-- C4.  On a collection enumerated in ascending document-id order, the
missing-index fallback of `getShiftsByEmployee` (filtered fetch plus
client-side stable sort by date) returns exactly the list the indexed
ordered+filtered path returns, in the same date-ascending order; and a
stored shift of the queried owner appears exactly once in the result of
either path. -/
theorem listByOwner_fallback_matches_indexed
    (store : List Shift) (eid : String) (s : Shift)
    (hsorted : store.Pairwise (fun a b => a.id < b.id))
    (hmem : s ∈ store) (hsid : s.employeeId = eid) :
    getShiftsByEmployee_fallback store eid = getShiftsByEmployee_indexed store eid ∧
    (getShiftsByEmployee_indexed store eid).Pairwise (fun a b => a.date ≤ b.date) ∧
    (getShiftsByEmployee_indexed store eid).count s = 1 ∧
    (getShiftsByEmployee_fallback store eid).count s = 1 := by
  have hfil : (store.filter (fun x => x.employeeId == eid)).Pairwise
      (fun a b => a.id < b.id) := hsorted.sublist (List.filter_sublist store)
  have heq : getShiftsByEmployee_fallback store eid = getShiftsByEmployee_indexed store eid := by
    unfold getShiftsByEmployee_fallback getShiftsByEmployee_indexed
    exact mergeSort_fallback_eq _ hfil
  have hmemf : s ∈ store.filter (fun x => x.employeeId == eid) :=
    List.mem_filter.mpr ⟨hmem, by simp [hsid]⟩
  have hndf : (store.filter (fun x => x.employeeId == eid)).Nodup := nodup_of_idSorted hfil
  have hcount : (store.filter (fun x => x.employeeId == eid)).count s = 1 := by
    have hle := List.nodup_iff_count_le_one.mp hndf s
    have hpos : 0 < (store.filter (fun x => x.employeeId == eid)).count s :=
      List.count_pos_iff.mpr hmemf
    omega
  have hcidx : (getShiftsByEmployee_indexed store eid).count s = 1 := by
    unfold getShiftsByEmployee_indexed
    rw [(List.mergeSort_perm _ dateIdLe).count_eq]
    exact hcount
  refine ⟨heq, ?_, hcidx, by rw [heq]; exact hcidx⟩
  unfold getShiftsByEmployee_indexed
  refine (List.sorted_mergeSort dateIdLe_transitive dateIdLe_totality _).imp ?_
  intro a b hab
  simp only [dateIdLe, Bool.or_eq_true, Bool.and_eq_true, decide_eq_true_eq,
    beq_iff_eq] at hab
  rcases hab with h | ⟨he, _⟩
  · exact le_of_lt h
  · exact le_of_eq he

/-- A three-document collection in ascending id order with a date tie, so
both the ordering and the tiebreak paths are exercised. -/
def tripleStore : List Shift :=
  [{ id := "d1", employeeId := "john", employeeName := "John Smith", date := "2024-11-22",
     type := .day, startTime := "08:00", endTime := "16:00" },
   { id := "d2", employeeId := "john", employeeName := "John Smith", date := "2024-11-20",
     type := .night, startTime := "00:00", endTime := "08:00" },
   { id := "d3", employeeId := "john", employeeName := "John Smith", date := "2024-11-22",
     type := .afternoon, startTime := "16:00", endTime := "00:00" }]

/-- The shift of `tripleStore` the round trip is checked for. -/
def tripleStoreShift : Shift :=
  { id := "d2", employeeId := "john", employeeName := "John Smith", date := "2024-11-20",
    type := .night, startTime := "00:00", endTime := "08:00" }

/-- C4 witness: both paths agree on the concrete store and the stored shift
appears exactly once in either result. -/
theorem listByOwner_fallback_matches_indexed_witness :
    getShiftsByEmployee_fallback tripleStore "john" =
      getShiftsByEmployee_indexed tripleStore "john" ∧
    (getShiftsByEmployee_indexed tripleStore "john").Pairwise (fun a b => a.date ≤ b.date) ∧
    (getShiftsByEmployee_indexed tripleStore "john").count tripleStoreShift = 1 ∧
    (getShiftsByEmployee_fallback tripleStore "john").count tripleStoreShift = 1 :=
  listByOwner_fallback_matches_indexed tripleStore "john" tripleStoreShift
    (by
      simp [tripleStore, List.pairwise_cons, String.lt_iff_toList_lt]
      decide)
    (by decide) (by decide)

end Schedulo
